import Mathlib

/-!
Verification of the omero-metadata bulk import/annotation pipeline
(`src/omero_metadata/populate.py`) against its natural-language
specification.  Python functions are shallowly embedded as Lean
definitions; Python dicts become association lists, exceptions become
`Except`, and generators become list-returning functions.
-/

namespace OmeroMetadata

/-! ## `_QueryContext._batch` and `_QueryContext._grouped_batch` -/

/-- Embedding of `_QueryContext._batch`: split a list into chunks of
size `sz` (the final chunk may be shorter). -/
def batchList (i : List α) (sz : Nat) : List (List α) :=
  match i with
  | [] => []
  | x :: xs =>
    if h : sz = 0 then [x :: xs]
    else (x :: xs).take sz :: batchList ((x :: xs).drop sz) sz
termination_by i.length
decreasing_by
  simp only [List.length_drop, List.length_cons]
  omega

/-- Loop of `_QueryContext._grouped_batch`: `batch` is the accumulator
that the Python code extends group by group; a batch is yielded when the
next group does not fit, and the non-empty remainder is yielded at the
end. -/
def groupedBatchAux (batch : List α) (groups : List (List α)) (sz : Nat) :
    List (List α) :=
  match groups with
  | [] => if batch.isEmpty then [] else [batch]
  | g :: gs =>
    if batch.length = 0 ∨ batch.length + g.length ≤ sz then
      groupedBatchAux (batch ++ g) gs sz
    else
      batch :: groupedBatchAux g gs sz

/-- Embedding of `_QueryContext._grouped_batch` (the generator is
modelled as the list of yielded batches). -/
def grouped_batch (groups : List (List α)) (sz : Nat) : List (List α) :=
  groupedBatchAux [] groups sz

/-! ## `DeleteMapAnnotationContext.populate` — link collection -/

/-- The `not_annotatable` tuple of `DeleteMapAnnotationContext.populate`. -/
def not_annotatable : List String := ["WellSample"]

/-- Embedding of `DeleteMapAnnotationContext._get_annotations_for_deletion`
restricted to what the caller observes: the remote projection query is a
parameter `queryLinks`; `objids` of `None` or `[]` short-circuits to no
results (the Python `if objids:` guard). -/
def get_annotations_for_deletion (queryLinks : String → List Nat → List Nat)
    (objtype : String) (objids : Option (List Nat)) : List Nat :=
  match objids with
  | none => []
  | some ids => if ids.isEmpty then [] else queryLinks objtype ids

/-- Embedding of the MapAnnotationLink-collection loop of
`DeleteMapAnnotationContext.populate`: iterate over the per-level id sets
(`parentids`), skip levels in `not_annotatable`, and record the
annotation-link ids returned for each level that produced any.  (The
Python `mapannids` dict keyed by the unique `objtype` of each iteration
is modelled as the ordered list of its entries.) -/
def populateMapAnnIds (queryLinks : String → List Nat → List Nat) :
    List (String × Option (List Nat)) → List (String × List Nat)
  | [] => []
  | p :: ps =>
    if p.1 ∈ not_annotatable then populateMapAnnIds queryLinks ps
    else
      let r := get_annotations_for_deletion queryLinks p.1 p.2
      if r.isEmpty then populateMapAnnIds queryLinks ps
      else (p.1, r) :: populateMapAnnIds queryLinks ps

/-! ## `BulkToMapAnnotationContext.write_to_omero` -/

/-- One remote save performed by the persist phase: either a combined
`_write_links` call over grouped batches of small annotations' links, or
a dedicated `_save_annotation_and_links` sequence (save the annotation,
then its links in batches). -/
inductive SaveOp (L : Type u) where
  | combined (batches : List (List L))
  | dedicated (links : List L) (batches : List (List L))

/-- Embedding of `BulkToMapAnnotationContext._save_annotation_and_links`:
the annotation is saved first, then its links in `_batch`-sized chunks. -/
def save_ann_and_links (links : List L) (sz : Nat) : SaveOp L :=
  .dedicated links (batchList links sz)

/-- Embedding of `BulkToMapAnnotationContext._write_links`: one combined
save of the accumulated small-annotation link groups, grouped by
`_grouped_batch`. -/
def write_links (links : List (List L)) (sz : Nat) : SaveOp L :=
  .combined (grouped_batch links sz)

/-- Loop of `BulkToMapAnnotationContext.write_to_omero`: each canonical
annotation is represented by its link list; `links`/`cur` are the
accumulator of small batches and its total size. -/
def write_to_omero_aux (sz : Nat) :
    List (List L) → List (List L) → Nat → List (SaveOp L)
  | [], links, _ => [write_links links sz]
  | batch :: cmas, links, cur =>
    if batch.length < sz then
      if 10 * sz < cur + batch.length then
        write_links (links ++ [batch]) sz :: write_to_omero_aux sz cmas [] 0
      else
        write_to_omero_aux sz cmas (links ++ [batch]) (cur + batch.length)
    else
      save_ann_and_links batch sz :: write_to_omero_aux sz cmas links cur

/-- Embedding of `BulkToMapAnnotationContext.write_to_omero` as the list
of remote saves it performs, in order. -/
def write_to_omero (cmas : List (List L)) (sz : Nat) : List (SaveOp L) :=
  write_to_omero_aux sz cmas [] 0

/-- The link lists saved through dedicated
`_save_annotation_and_links` calls, in order. -/
def dedicatedOf : List (SaveOp L) → List (List L)
  | [] => []
  | .dedicated l _ :: ops => l :: dedicatedOf ops
  | .combined _ :: ops => dedicatedOf ops

/-- All links saved through combined `_write_links` calls, in order. -/
def combinedLinksOf : List (SaveOp L) → List L
  | [] => []
  | .dedicated _ _ :: ops => combinedLinksOf ops
  | .combined bs :: ops => bs.flatten ++ combinedLinksOf ops

/-! ## Basic data model

Column objects (`omero.grid.*Column`) are represented by `BCol`; the
column's Python class becomes the `cls` tag.  Python's `dict` becomes an
association list with first-match lookup and replace-or-append update
(Python preserves insertion order and overwrites in place).  Exceptions
become `PyErr`; resolved cell values become `RValue`, with `rskip`
standing for an instance of the `Skip` class. -/

inductive ColumnClass where
  | plate | well | image | dataset | roi
  | long | double | string | bool
deriving DecidableEq

/-- The value of a Python float: NaN, signed infinity, or a rational
(doubles are modelled exactly; no claim depends on binary rounding). -/
inductive PyNum where
  | nan
  | inf
  | ninf
  | val (q : Rat)
deriving DecidableEq

/-- A resolved cell value as returned by `ValueResolver.resolve`. -/
inductive RValue where
  | rint (n : Int)
  | rfloat (x : PyNum)
  | rstr (s : String)
  | rbool (b : Bool)
  | rskip
deriving DecidableEq

/-- Python exceptions raised by the pipeline. -/
inductive PyErr where
  | valueError (msg : String)
  | metadataError (msg : String)
  | indexError (msg : String)
  | nameError (msg : String)
  | keyError (msg : String)
  | pyException (msg : String)
deriving DecidableEq

/-- An `omero.grid` column: display name, description, Python class and
the value buffer.  (The `size` field of string columns is not modelled;
no claim depends on it.) -/
structure BCol where
  name : String
  description : String
  cls : ColumnClass
  values : List RValue
deriving DecidableEq

/-- Python dict lookup `d[k]` (first match; keys are unique because
updates replace in place). -/
def dget [DecidableEq K] : List (K × V) → K → Option V
  | [], _ => none
  | p :: d, k => if p.1 = k then some p.2 else dget d k

/-- Python dict update `d[k] = v`: replace in place, else append. -/
def dset [DecidableEq K] : List (K × V) → K → V → List (K × V)
  | [], k, v => [(k, v)]
  | p :: d, k, v => if p.1 = k then (k, v) :: d else p :: dset d k v

/-! ## String helpers

Core `String` loop functions are avoided in favour of structural
`List Char` recursion so that every definition evaluates by kernel
reduction. -/

/-- Python `str.lower()` (ASCII, which is all the pipeline compares). -/
def pyToLower (s : String) : String := (s.toList.map Char.toLower).asString

/-- Python `str.strip()`. -/
def pyTrim (s : String) : String :=
  ((s.toList.dropWhile Char.isWhitespace).reverse.dropWhile
    Char.isWhitespace).reverse.asString

/-- Does `pat` occur as a contiguous substring (Python `pat in hay`)? -/
def containsSub (pat : List Char) : List Char → Bool
  | [] => decide (pat = [])
  | c :: rest =>
    decide ((c :: rest).take pat.length = pat) || containsSub pat rest

/-- Python `pat in hay` on strings. -/
def pyContains (pat hay : String) : Bool := containsSub pat.toList hay.toList

/-- Python `hay.startswith(pat)`. -/
def pyStartsWith (pat hay : String) : Bool :=
  decide (hay.toList.take pat.toList.length = pat.toList)

/-- Replace every non-overlapping occurrence of `pat` (non-empty),
scanning left to right — the semantics of `re.sub` on a literal
pattern.  `fuel` bounds the recursion by the input length. -/
def replaceAllAux (pat rep : List Char) : Nat → List Char → List Char
  | 0, l => l
  | _ + 1, [] => []
  | fuel + 1, c :: rest =>
    if (c :: rest).take pat.length = pat ∧ pat ≠ [] then
      rep ++ replaceAllAux pat rep fuel ((c :: rest).drop pat.length)
    else
      c :: replaceAllAux pat rep fuel rest

/-- `re.sub(pat, rep, s)` for a literal pattern `pat`. -/
def pyReplace (s pat rep : String) : String :=
  (replaceAllAux pat.toList rep.toList s.toList.length s.toList).asString

/-- Split at the first occurrence of `pat` (Python `s.split(pat, 1)`),
returning `none` when `pat` does not occur. -/
def splitFirstAux (pat : List Char) : Nat → List Char →
    Option (List Char × List Char)
  | 0, _ => none
  | _ + 1, [] => none
  | fuel + 1, c :: rest =>
    if (c :: rest).take pat.length = pat then
      some ([], (c :: rest).drop pat.length)
    else
      match splitFirstAux pat fuel rest with
      | some (pre, post) => some (c :: pre, post)
      | none => none

/-- Python `s.split(pat, 1)` as an optional pair. -/
def pySplitFirst (s pat : String) : Option (String × String) :=
  (splitFirstAux pat.toList (s.toList.length + 1) s.toList).map
    fun p => (p.1.asString, p.2.asString)

/-! ## Number parsing and formatting -/

/-- Value of a string of decimal digits. -/
def digitsToNat (s : String) : Nat :=
  s.toList.foldl (fun acc c => acc * 10 + (c.toNat - 48)) 0

/-- Python `int(s)`: optional sign and a non-empty digit string after
stripping whitespace (`None` models an uncaught `ValueError`). -/
def pyInt (s : String) : Option Int :=
  let t := pyTrim s
  if pyStartsWith "-" t then
    let d := t.toList.drop 1
    if d ≠ [] ∧ d.all Char.isDigit then some (-(digitsToNat d.asString : Int))
    else none
  else
    let d := if pyStartsWith "+" t then t.toList.drop 1 else t.toList
    if d ≠ [] ∧ d.all Char.isDigit then some ((digitsToNat d.asString : Int))
    else none

/-- Little-endian decimal digits of `n`; `fuel`-bounded structural
recursion so that the kernel can evaluate it. -/
def natDigitsRevAux : Nat → Nat → List Nat
  | 0, _ => []
  | _ + 1, 0 => []
  | fuel + 1, n + 1 => ((n + 1) % 10) :: natDigitsRevAux fuel ((n + 1) / 10)

/-- Python `str(n)` for a non-negative integer. -/
def natStr (n : Nat) : String :=
  if n = 0 then "0"
  else (((natDigitsRevAux n n).map fun d => Char.ofNat (48 + d)).reverse).asString

/-- Python `float(s)`: NaN/inf literals or a decimal with optional
exponent.  (Underscore separators and hex floats are not modelled; no
claim exercises them.) -/
def pyFloat (s : String) : Option PyNum :=
  let t := pyToLower (pyTrim s)
  if t = "nan" ∨ t = "+nan" ∨ t = "-nan" then some PyNum.nan
  else if t = "inf" ∨ t = "+inf" ∨ t = "infinity" ∨ t = "+infinity" then
    some PyNum.inf
  else if t = "-inf" ∨ t = "-infinity" then some PyNum.ninf
  else
    let (sign, body) : Int × List Char :=
      if pyStartsWith "-" t then (-1, t.toList.drop 1)
      else if pyStartsWith "+" t then (1, t.toList.drop 1)
      else (1, t.toList)
    let (mant, ex) : List Char × Option (List Char) :=
      match pySplitFirst body.asString "e" with
      | some (m, e) => (m.toList, some e.toList)
      | none => (body, none)
    let (ipart, fpart) : List Char × List Char :=
      match pySplitFirst mant.asString "." with
      | some (i, f) => (i.toList, f.toList)
      | none => (mant, [])
    if ipart.all Char.isDigit ∧ fpart.all Char.isDigit ∧
        (ipart ≠ [] ∨ fpart ≠ []) then
      let base : Rat :=
        (sign * (digitsToNat ipart.asString : Int)) +
          sign * (digitsToNat fpart.asString : Int) / ((10 : Rat) ^ fpart.length)
      match ex with
      | none => some (PyNum.val base)
      | some e =>
        match pyInt e.asString with
        | some k => some (PyNum.val (base * (10 : Rat) ^ k))
        | none => none
    else none

/-- First index of `x` in `l` (Python `list.index`, `None` for the
`ValueError` case). -/
def pyIndex [DecidableEq α] (l : List α) (x : α) : Option Nat :=
  match l with
  | [] => none
  | y :: ys =>
    if y = x then some 0
    else (pyIndex ys x).map (· + 1)

/-! ## `ValueResolver` constants -/

/-- `BOOLEAN_TRUE` from the source. -/
def BOOLEAN_TRUE : List String := ["yes", "true", "t", "1"]

/-- `ValueResolver.AS_ALPHA`: `a`–`z` followed by `aa`–`az` (rows past
26 use the two-letter extension). -/
def AS_ALPHA : List String :=
  ((List.range 26).map fun v => String.singleton (Char.ofNat (97 + v))) ++
    ((List.range 26).map fun v => "a".push (Char.ofNat (97 + v)))

/-! ## `ParsingContext.populate_row`

`populate_row` resolves each cell of a raw row (delegating to
`ValueResolver.resolve`, passed in as `resolveFn` to model the dynamic
dispatch), stops at the first `Skip`, and only if no cell skipped
appends the resolved values to the column buffers, allowing trailing
derived columns (image/roi columns and the `* Name` companions) to stay
empty for later post-processing. -/

/-- The special column names of `populate_row`'s trailing-column check
(`PLATE_NAME_COLUMN` … `ROI_NAME_COLUMN`). -/
def NAME_COLUMNS : List String :=
  ["Plate Name", "Well Name", "Image Name", "Roi Name"]

/-- The cell-resolution loop of `populate_row`: resolve cells in order,
returning `none` as soon as some cell resolves to `Skip` (the Python
`break` plus the `value.__class__ is Skip` test), propagating errors. -/
def resolveCells (resolveFn : BCol → String → List (BCol × String) →
    Except PyErr RValue) (full : List (BCol × String)) :
    List (BCol × String) → Except PyErr (Option (List RValue))
  | [] => .ok (some [])
  | (c, v) :: rest =>
    match resolveFn c v full with
    | .error e => .error e
    | .ok .rskip => .ok none
    | .ok val =>
      match resolveCells resolveFn full rest with
      | .error e => .error e
      | .ok none => .ok none
      | .ok (some vs) => .ok (some (val :: vs))

/-- The buffer-filling loop of `populate_row` (after `values.reverse()`
each column pops the next value; once values run out, image/roi columns
and `* Name` columns are left for post-processing and any other column
raises `IndexError`). -/
def fillColumns : List BCol → List RValue → Except PyErr (List BCol)
  | [], _ => .ok []
  | c :: cs, [] =>
    if c.cls = .image ∨ c.cls = .roi ∨ c.name ∈ NAME_COLUMNS then
      (fillColumns cs []).map (c :: ·)
    else .error (.indexError ("Column " ++ c.name ++ " has no values."))
  | c :: cs, v :: vs =>
    (fillColumns cs vs).map
      (BCol.mk c.name c.description c.cls (c.values ++ [v]) :: ·)

/-- Embedding of `ParsingContext.populate_row`.  The Python list
comprehension raises `IndexError` when the row is longer than the
column list, and an empty row leaves the local `value` unbound
(`NameError`). -/
def populate_row (resolveFn : BCol → String → List (BCol × String) →
    Except PyErr RValue) (columns : List BCol) (row : List String) :
    Except PyErr (List BCol) :=
  if columns.length < row.length then
    .error (.indexError "list index out of range")
  else
    match row with
    | [] => .error (.nameError "value")
    | _ :: _ =>
      let pairs := (columns.take row.length).zip row
      match resolveCells resolveFn pairs pairs with
      | .error e => .error e
      | .ok none => .ok columns
      | .ok (some vals) => fillColumns columns vals

/-- Demo resolver for the `populate_row` witness: plate cells skip on
`"missing"` and otherwise resolve to the −1 sentinel; other cells pass
through as strings. -/
def rowDemoResolve (c : BCol) (v : String) (_ : List (BCol × String)) :
    Except PyErr RValue :=
  if c.cls = ColumnClass.plate then
    if v = "missing" then .ok .rskip else .ok (.rint (-1))
  else .ok (.rstr v)

/-- Demo columns for the `populate_row` witness. -/
def rowDemoColumns : List BCol :=
  [BCol.mk "Plate" "" ColumnClass.plate [], BCol.mk "Well Type" "" ColumnClass.string []]

/-! ## `HeaderResolver`

The target object's Python class becomes `TargetClass`; the per-kind
`*_keys` dictionaries, the `COLUMN_TYPES` code table and
`_create_columns` (column construction, companion appending and
`columns_sanity_check`) are embedded directly. -/

inductive TargetClass where
  | screen | plate | dataset | project | image
deriving DecidableEq

/-- The `COLUMN_TYPES` code table. -/
def COLUMN_TYPES : List (String × ColumnClass) :=
  [("plate", .plate), ("well", .well), ("image", .image),
   ("dataset", .dataset), ("roi", .roi),
   ("d", .double), ("l", .long), ("s", .string), ("b", .bool)]

/-- `HeaderResolver.image_keys`. -/
def image_keys : List (String × ColumnClass) := [("roi", .roi)]

/-- `HeaderResolver.dataset_keys`. -/
def dataset_keys : List (String × ColumnClass) :=
  [("image", .image), ("image_name", .string)]

/-- `HeaderResolver.project_keys` (note `dataset` maps to a plain string
column in the source). -/
def project_keys : List (String × ColumnClass) :=
  [("dataset", .string), ("dataset_name", .string),
   ("image", .image), ("image_name", .string)]

/-- `HeaderResolver.plate_keys`. -/
def plate_keys : List (String × ColumnClass) :=
  [("well", .well), ("field", .image), ("row", .long),
   ("column", .long), ("wellsample", .image), ("image", .image)]

/-- `HeaderResolver.screen_keys` (the `plate` entry merged with
`plate_keys`). -/
def screen_keys : List (String × ColumnClass) :=
  ("plate", ColumnClass.plate) :: plate_keys

/-- The recognized-header dictionary selected by `_create_columns`
through `getattr(self, "%s_keys" % klass)`. -/
def keysFor : TargetClass → List (String × ColumnClass)
  | .screen => screen_keys
  | .plate => plate_keys
  | .dataset => dataset_keys
  | .project => project_keys
  | .image => image_keys

/-- `json.dumps` of the single-pair dict built from a `%%key=value`
description payload. -/
def jsonKV (k v : String) : String :=
  "\x7b\"" ++ k ++ "\": \"" ++ v ++ "\"\x7d"

/-- The display-name/description processing at the top of
`_create_columns`'s loop: split at the first `%%`, strip the name,
re-encode a `key=value` payload as JSON, and replace `/` by `\`. -/
def processHeaderName (raw : String) : String × String :=
  let nd : String × String :=
    match pySplitFirst raw "%%" with
    | some (n, d) =>
      let n := pyTrim n
      let d :=
        match pySplitFirst d "=" with
        | some (k, v) => jsonKV (pyTrim k) (pyTrim v)
        | none => d
      (n, d)
    | none => (raw, "")
  (pyReplace nd.1 "/" "\\", nd.2)

/-- Column construction when an explicit type list is given: the code
token indexes `COLUMN_TYPES` (an unknown token is a `KeyError`). -/
def buildTyped : List (String × String) → Except PyErr (List BCol)
  | [] => .ok []
  | (raw, tok) :: rest =>
    let nd := processHeaderName raw
    match dget COLUMN_TYPES tok with
    | none => .error (.keyError tok)
    | some cls =>
      (buildTyped rest).map (BCol.mk nd.1 nd.2 cls [] :: ·)

/-- Column construction by header inference: the lowered raw header is
looked up in the per-target keys dictionary; a miss falls back to a
string column. -/
def buildInferred (keys : List (String × ColumnClass)) :
    List String → List BCol
  | [] => []
  | raw :: rest =>
    let nd := processHeaderName raw
    let cls := (dget keys (pyToLower raw)).getD ColumnClass.string
    BCol.mk nd.1 nd.2 cls [] :: buildInferred keys rest

/-- The first phase of `_create_columns`: length check of an explicit
type list, then per-header column construction. -/
def createColumnsBase (target : TargetClass) (headers : List String)
    (types : Option (List String)) : Except PyErr (List BCol) :=
  match types with
  | some ts =>
    if ts.length ≠ headers.length then
      .error (.metadataError "Number of columns and column types not equal.")
    else buildTyped (headers.zip ts)
  | none => .ok (buildInferred (keysFor target) headers)

/-- A synthesized companion string column. -/
def strNameCol (nm : String) : BCol := BCol.mk nm "" ColumnClass.string []

/-- One iteration of `_create_columns`'s append loop: rename identifier
columns to their canonical names, queue their companion name columns,
and queue id companions for explicit `Image Name`/`Roi Name` columns
(the name checks run on the renamed column, as in the source, and the
`Roi Name` companion is skipped for a Dataset target). -/
def renameAndCompanions (target : TargetClass) (c : BCol) :
    BCol × List BCol :=
  let rc : BCol × List BCol :=
    if c.cls = .plate then
      (BCol.mk "Plate" c.description c.cls c.values, [strNameCol "Plate Name"])
    else if c.cls = .well then
      (BCol.mk "Well" c.description c.cls c.values, [strNameCol "Well Name"])
    else if c.cls = .image then
      (BCol.mk "Image" c.description c.cls c.values, [strNameCol "Image Name"])
    else if c.cls = .roi ∧ target ≠ .dataset then
      (BCol.mk "Roi" c.description c.cls c.values, [strNameCol "Roi Name"])
    else if c.cls = .dataset then
      (BCol.mk "Dataset" c.description c.cls c.values, [])
    else (c, [])
  let app := rc.2 ++
    (if rc.1.name = "Image Name" then [BCol.mk "Image" "" ColumnClass.image []]
     else []) ++
    (if rc.1.name = "Roi Name" then [BCol.mk "Roi" "" ColumnClass.roi []]
     else [])
  (rc.1, app)

/-- The whole append loop of `_create_columns`: returns the (renamed)
columns and the queued `append` list. -/
def processColumns (target : TargetClass) : List BCol →
    List BCol × List BCol
  | [] => ([], [])
  | c :: rest =>
    let rc := renameAndCompanions target c
    let rr := processColumns target rest
    (rc.1 :: rr.1, rc.2 ++ rr.2)

/-- Embedding of `HeaderResolver.columns_sanity_check`: Well and Image
columns together are a `MetadataError`; a roi id column together with an
explicit `Roi Name` column returns `False` (no companions will be
appended); otherwise `True`. -/
def columns_sanity_check (cols : List BCol) : Except PyErr Bool :=
  if ColumnClass.well ∈ cols.map (·.cls) ∧
      ColumnClass.image ∈ cols.map (·.cls) then
    .error (.metadataError
      "Well Column and Image Column cannot be resolved at the same time. Pick one.")
  else if ColumnClass.roi ∈ cols.map (·.cls) ∧
      "Roi Name" ∈ cols.map (·.name) then
    .ok false
  else .ok true

/-- Embedding of `HeaderResolver._create_columns` (via
`create_columns`): build the base columns, run the append loop, then
extend with the companions only when the sanity check passes. -/
def create_columns (target : TargetClass) (headers : List String)
    (types : Option (List String)) : Except PyErr (List BCol) :=
  match createColumnsBase target headers types with
  | .error e => .error e
  | .ok cols =>
    let rr := processColumns target cols
    match columns_sanity_check rr.1 with
    | .error e => .error e
    | .ok true => .ok (rr.1 ++ rr.2)
    | .ok false => .ok rr.1

/-- Spec-side companion description (one name companion per plate, well,
image and — except for Dataset targets — roi column; one id companion
per explicit `Image Name`/`Roi Name` column), stated on the renamed
column. -/
def companionsSpec (target : TargetClass) (c : BCol) : List BCol :=
  (if c.cls = .plate then [strNameCol "Plate Name"] else []) ++
  (if c.cls = .well then [strNameCol "Well Name"] else []) ++
  (if c.cls = .image then [strNameCol "Image Name"] else []) ++
  (if c.cls = .roi ∧ target ≠ .dataset then [strNameCol "Roi Name"] else []) ++
  (if c.name = "Image Name" then [BCol.mk "Image" "" ColumnClass.image []]
   else []) ++
  (if c.name = "Roi Name" then [BCol.mk "Roi" "" ColumnClass.roi []]
   else [])

/-! ## Type-annotation rows (`is_row_column_types`, `get_column_types`,
`preprocess_from_handle`) -/

/-- `REGEX_HEADER_SPECIFIER`. -/
def REGEX_HEADER_SPECIFIER : String := "# header "

/-- Embedding of `HeaderResolver.is_row_column_types`: a substring
containment test (`"# header" in row[0]`) on the first cell, not a
prefix test.  (`row[0]` of an empty row would raise; callers pass
non-empty rows and the claims assume one.) -/
def is_row_column_types (row : List String) : Bool :=
  pyContains "# header" (row.headD "")

/-- Embedding of `parse_column_types`: each token is lowered and must be
a `COLUMN_TYPES` code. -/
def parse_column_types (toks : List String) : Except PyErr (List String) :=
  toks.mapM fun t =>
    if (dget COLUMN_TYPES (pyToLower t)).isSome then .ok (pyToLower t)
    else .error (.metadataError ("Column type " ++ t ++ " unknown."))

/-- Embedding of `HeaderResolver.get_column_types`: `None` without the
marker; otherwise every occurrence of `"# header "` is stripped from the
first token (`re.sub`) and the tokens are validated. -/
def get_column_types (row : List String) : Except PyErr (Option (List String)) :=
  match row with
  | [] => .error (.indexError "list index out of range")
  | c :: rest =>
    if pyContains "# header" c then
      (parse_column_types (pyReplace c REGEX_HEADER_SPECIFIER "" :: rest)).map
        some
    else .ok none

/-- The header-selection front of `ParsingContext.preprocess_from_handle`:
read the first row, detect a type-annotation row, read the header row
after it, check the first row for empty cells, and extract column types
when none were supplied. -/
def preprocess_header (rows : List (List String))
    (column_types : Option (List String)) :
    Except PyErr (List String × Option (List String)) :=
  match rows with
  | [] => .error (.pyException "StopIteration")
  | first :: rest =>
    if is_row_column_types first then
      match rest with
      | [] => .error (.pyException "StopIteration")
      | header :: _ =>
        if first.any (fun h => h = "") then
          .error (.pyException "Empty column header in CSV")
        else
          match column_types with
          | some ts => .ok (header, some ts)
          | none => (get_column_types first).map fun ts => (header, ts)
    else
      if first.any (fun h => h = "") then
        .error (.pyException "Empty column header in CSV")
      else .ok (first, column_types)

/-! ## Hierarchy loaders — duplicate display names

`ScreenWrapper._load` indexes plates by name with a plain dict
assignment (a duplicate plate name silently overwrites the earlier
entry); `DatasetWrapper._load` raises on a duplicate image name;
`ImageWrapper._load` sets the `ambiguous_naming` flag on a duplicate
ROI name.  Entities are reduced to (id, name) pairs. -/

/-- The `plates_by_name` index built by `ScreenWrapper._load` from the
loaded plates, in load order. -/
def screen_plates_by_name (plates : List (Nat × String)) :
    List (String × Nat) :=
  plates.foldl (fun d p => dset d p.2 p.1) []

/-- Embedding of `ScreenWrapper.resolve_plate`: plate id by name, the
`KeyError` fallback returning a `Skip` instance. -/
def resolve_plate (plates_by_name : List (String × Nat)) (value : String) :
    RValue :=
  match dget plates_by_name value with
  | some pid => .rint pid
  | none => .rskip

/-- The `images_by_name` loop of `DatasetWrapper._load`: raises on a
duplicate image name. -/
def dataset_images_by_name (d : List (String × Nat)) :
    List (Nat × String) → Except PyErr (List (String × Nat))
  | [] => .ok d
  | img :: rest =>
    if (dget d img.2).isSome then
      .error (.pyException ("Image named " ++ img.2 ++ " present."))
    else dataset_images_by_name (dset d img.2 img.1) rest

/-- The `rois_by_name` loop of `ImageWrapper._load`: the state is the
`ambiguous_naming` flag and the name index; a repeated (possibly
`None`) ROI name sets the flag and overwrites. -/
def image_rois_by_name (st : Bool × List (Option String × Nat)) :
    List (Nat × Option String) → Bool × List (Option String × Nat)
  | [] => st
  | r :: rest =>
    let amb := if (dget st.2 r.2).isSome then true else st.1
    image_rois_by_name (amb, dset st.2 r.2 r.1) rest

/-! ## `ValueResolver.resolve`

The wrapper state used by the inline `ImageColumn` branch becomes
explicit index fields; the branches that delegate to the concrete
wrapper (`resolve_well`, `resolve_plate`, `resolve_dataset`,
`resolve_roi`, `resolve_shape`) become function fields, modelling the
dynamic dispatch. -/

/-- The parts of `ValueResolver`/wrapper state that `resolve` reads. -/
structure ResolverCtx where
  allow_nan : Bool
  imagesById : List (Nat × List (Int × Nat))
  platesByName : List (String × Nat)
  datasetsByName : List (String × Nat)
  datasetsById : List (Int × Nat)
  resolveWellFn : BCol → List (BCol × String) → String → Except PyErr RValue
  resolvePlateFn : BCol → List (BCol × String) → String → Except PyErr RValue
  resolveDatasetFn : BCol → List (BCol × String) → String → Except PyErr RValue
  resolveRoiFn : BCol → List (BCol × String) → String → Except PyErr RValue
  resolveShapeFn : String → Except PyErr RValue

/-- The parent-scope scan of `resolve`'s `ImageColumn` branch: the first
sibling cell that is a plate column or is named `dataset name`/`dataset`
selects the image index (a missing plate/dataset key is an uncaught
`KeyError`; a non-integer `dataset` id an uncaught `ValueError`). -/
def findImagesById (ctx : ResolverCtx) :
    List (BCol × String) → Except PyErr (Option (List (Int × Nat)))
  | [] => .ok none
  | (c, v) :: rest =>
    if c.cls = .plate then
      match dget ctx.platesByName v with
      | none => .error (.keyError v)
      | some pid =>
        match dget ctx.imagesById pid with
        | none => .error (.keyError (natStr pid))
        | some imgs => .ok (some imgs)
    else if pyToLower c.name = "dataset name" then
      match dget ctx.datasetsByName v with
      | none => .error (.keyError v)
      | some did =>
        match dget ctx.imagesById did with
        | none => .error (.keyError (natStr did))
        | some imgs => .ok (some imgs)
    else if pyToLower c.name = "dataset" then
      match pyInt v with
      | none => .error (.valueError v)
      | some n =>
        match dget ctx.datasetsById n with
        | none => .error (.keyError v)
        | some did =>
          match dget ctx.imagesById did with
          | none => .error (.keyError (natStr did))
          | some imgs => .ok (some imgs)
    else findImagesById ctx rest

/-- Embedding of `ValueResolver.resolve`, branch for branch: image
columns resolve inline within the selected parent scope (`KeyError`
becomes the −1 sentinel); well/plate/dataset/roi columns and `shape`
columns delegate to the wrapper; `row`/`column` long columns decrement a
1-based literal or decode a letter token; string columns pass through;
an empty numeric cell yields NaN or a `ValueError` depending on
`allow_nan`; long/double/boolean parsing closes the chain. -/
def resolve (ctx : ResolverCtx) (column : BCol) (value : String)
    (row : List (BCol × String)) : Except PyErr RValue :=
  let column_as_lower := pyToLower column.name
  if column.cls = .image then
    match
      (match ctx.imagesById with
       | [single] => .ok (some single.2)
       | _ => findImagesById ctx row :
        Except PyErr (Option (List (Int × Nat)))) with
    | .error e => .error e
    | .ok none =>
      .error (.metadataError "Unable to locate Parent column in Row")
    | .ok (some imgs) =>
      match pyInt value with
      | none => .error (.valueError value)
      | some n =>
        match dget imgs n with
        | some iid => .ok (.rint iid)
        | none => .ok (.rint (-1))
  else if column.cls = .well then ctx.resolveWellFn column row value
  else if column.cls = .plate then ctx.resolvePlateFn column row value
  else if column.cls = .dataset then ctx.resolveDatasetFn column row value
  else if column.cls = .roi then ctx.resolveRoiFn column row value
  else if column_as_lower = "shape" then ctx.resolveShapeFn value
  else if (column_as_lower = "row" ∨ column_as_lower = "column") ∧
      column.cls = .long then
    match pyInt value with
    | some n => .ok (.rint (n - 1))
    | none =>
      match pyIndex AS_ALPHA (pyToLower value) with
      | some i => .ok (.rint i)
      | none => .error (.valueError (pyToLower value ++ " is not in list"))
  else if column.cls = .string then .ok (.rstr value)
  else if value.length = 0 ∧ (column.cls = .long ∨ column.cls = .double) then
    if ctx.allow_nan then .ok (.rfloat .nan)
    else .error (.valueError
      "Empty Double or Long value. Use --allow_nan to convert to NaN")
  else if column.cls = .long then
    match pyInt value with
    | some n => .ok (.rint n)
    | none => .error (.valueError value)
  else if column.cls = .double then
    match pyFloat value with
    | some x => .ok (.rfloat x)
    | none => .error (.valueError value)
  else if column.cls = .bool then
    .ok (.rbool (pyToLower value ∈ BOOLEAN_TRUE))
  else .error (.metadataError "Unsupported column class")

/-- A resolver context with no loaded hierarchy, for concrete checks of
the non-delegating branches. -/
def emptyCtx (allow_nan : Bool) : ResolverCtx :=
  ResolverCtx.mk allow_nan [] [] [] []
    (fun _ _ _ => .error (.metadataError "no wrapper"))
    (fun _ _ _ => .error (.metadataError "no wrapper"))
    (fun _ _ _ => .error (.metadataError "no wrapper"))
    (fun _ _ _ => .error (.metadataError "no wrapper"))
    (fun _ => .error (.metadataError "no wrapper"))

/-! ## `SPWWrapper.parse_plate` and `SPWWrapper.resolve_well`

A well is reduced to its grid coordinate and id.  `parse_plate` builds
the `wells_by_location` index: row letter (via `AS_ALPHA`, raising
`IndexError` past its 52 entries) to 1-based column *string*
(`str(well.column.val + 1)`) to well.  (The `wells_by_id` and
`images_by_id` side indices of the source are not read by
`resolve_well` and are not modelled.) -/

/-- A well: 0-based grid row/column and object id. -/
structure WellRec where
  row : Nat
  col : Nat
  id : Nat
deriving DecidableEq

/-- One plate's `wells_by_location` index: row letter to 1-based column
string to well. -/
abbrev PlateIndex := List (String × List (String × WellRec))

/-- The loop of `SPWWrapper.parse_plate` restricted to the
`wells_by_location` index: key each well by `AS_ALPHA[row]` (an
`IndexError` past 52 rows) and by the string `str(column + 1)`. -/
def parse_plate_aux (wbl : PlateIndex) :
    List WellRec → Except PyErr PlateIndex
  | [] => .ok wbl
  | w :: rest =>
    match AS_ALPHA[w.row]? with
    | none => .error (.indexError "list index out of range")
    | some letter =>
      parse_plate_aux
        (dset wbl letter
          (dset ((dget wbl letter).getD []) (natStr (w.col + 1)) w)) rest

/-- Embedding of `SPWWrapper.parse_plate` restricted to the
`wells_by_location` index. -/
def parse_plate (wells : List WellRec) : Except PyErr PlateIndex :=
  parse_plate_aux [] wells

/-- `WELL_REGEX` (`^([a-zA-Z]+)(\d+)$`): the maximal letter prefix and
the all-digit remainder, both non-empty. -/
def wellRegexMatch (value : String) : Option (String × String) :=
  let letters := value.toList.takeWhile Char.isAlpha
  let rest := value.toList.drop letters.length
  if letters ≠ [] ∧ rest ≠ [] ∧ rest.all Char.isDigit then
    some (letters.asString, rest.asString)
  else none

/-- The plate-scope scan of `resolve_well` when more than one plate is
loaded: the first plate-typed cell of the row selects
`wells_by_location[value]` (a missing plate is an uncaught
`KeyError`). -/
def findPlateColumn (wbl : List (String × PlateIndex)) :
    List (BCol × String) → Except PyErr (Option PlateIndex)
  | [] => .ok none
  | (c, v) :: rest =>
    if c.cls = .plate then
      match dget wbl v with
      | some wells => .ok (some wells)
      | none => .error (.keyError v)
    else findPlateColumn wbl rest

/-- Embedding of `SPWWrapper.resolve_well`: regex-validate the
coordinate, lower the letters, normalize the digits through
`str(int(·))`, pick the plate scope (the single loaded plate, else via
the row's plate column), and look the coordinate up — a `KeyError`
becomes the −1 sentinel. -/
def resolve_well (wbl : List (String × PlateIndex))
    (row : List (BCol × String)) (value : String) : Except PyErr RValue :=
  match wellRegexMatch value with
  | none =>
    .error (.metadataError ("Cannot parse well identifier " ++ value))
  | some lp =>
    let plate_row := pyToLower lp.1
    let plate_column := natStr (digitsToNat lp.2)
    let scope : Except PyErr (Option PlateIndex) :=
      match wbl with
      | [single] => .ok (some single.2)
      | _ => findPlateColumn wbl row
    match scope with
    | .error e => .error e
    | .ok none =>
      .error (.metadataError "Unable to locate Plate column in Row")
    | .ok (some wells) =>
      match dget wells plate_row with
      | none => .ok (.rint (-1))
      | some cols =>
        match dget cols plate_column with
        | none => .ok (.rint (-1))
        | some w => .ok (.rint w.id)

/-- The nested `wells_by_location[plate_row][plate_column]` lookup. -/
def lookup2 (wbl : PlateIndex)
    (L K : String) : Option WellRec :=
  match dget wbl L with
  | none => none
  | some cols => dget cols K

theorem groupedBatchAux_join (batch : List α) (groups : List (List α))
    (sz : Nat) :
    (groupedBatchAux batch groups sz).flatten = batch ++ groups.flatten := by
  induction groups generalizing batch with
  | nil =>
    simp only [groupedBatchAux]
    split
    · next h =>
      rw [List.isEmpty_iff] at h
      simp [h]
    · simp
  | cons g gs ih =>
    simp only [groupedBatchAux]
    split
    · rw [ih]
      simp
    · simp only [List.flatten_cons, ih]

theorem groupedBatchAux_mem (batch : List α) (groups : List (List α))
    (sz : Nat) (b : List α) (hb : b ∈ groupedBatchAux batch groups sz) :
    b.length ≤ sz ∨ b = batch ∨ b ∈ groups := by
  induction groups generalizing batch with
  | nil =>
    simp only [groupedBatchAux] at hb
    split at hb
    · simp at hb
    · simp at hb
      exact Or.inr (Or.inl hb)
  | cons g gs ih =>
    simp only [groupedBatchAux] at hb
    split at hb
    · next hcond =>
      rcases ih _ hb with h | h | h
      · exact Or.inl h
      · rcases hcond with h0 | hle
        · rw [List.length_eq_zero] at h0
          subst h0
          simp at h
          subst h
          exact Or.inr (Or.inr (List.mem_cons_self _ _))
        · subst h
          refine Or.inl ?_
          simpa using hle
      · exact Or.inr (Or.inr (List.mem_cons_of_mem _ h))
    · rcases List.mem_cons.mp hb with h | h
      · exact Or.inr (Or.inl h)
      · rcases ih _ h with h | h | h
        · exact Or.inl h
        · subst h
          exact Or.inr (Or.inr (List.mem_cons_self _ _))
        · exact Or.inr (Or.inr (List.mem_cons_of_mem _ h))

theorem groupedBatchAux_extends (batch : List α) (groups : List (List α))
    (sz : Nat) (h : batch ≠ []) :
    ∃ b ∈ groupedBatchAux batch groups sz, ∃ t, b = batch ++ t := by
  induction groups generalizing batch with
  | nil =>
    refine ⟨batch, ?_, [], by simp⟩
    simp [groupedBatchAux, h]
  | cons g gs ih =>
    simp only [groupedBatchAux]
    split
    · obtain ⟨b, hbmem, t, ht⟩ := ih (batch ++ g) (by simp [h])
      exact ⟨b, hbmem, g ++ t, by simp [ht]⟩
    · exact ⟨batch, List.mem_cons_self _ _, [], by simp⟩

theorem groupedBatchAux_whole (batch : List α) (groups : List (List α))
    (sz : Nat) (g : List α) (hg : g ∈ groups) (hne : g ≠ []) :
    ∃ b ∈ groupedBatchAux batch groups sz, ∃ p t, b = p ++ g ++ t := by
  induction groups generalizing batch with
  | nil => simp at hg
  | cons g₀ gs ih =>
    rcases List.mem_cons.mp hg with h | h
    · subst h
      simp only [groupedBatchAux]
      split
      · obtain ⟨b, hbmem, t, ht⟩ :=
          groupedBatchAux_extends (batch ++ g) gs sz (by simp [hne])
        exact ⟨b, hbmem, batch, t, by simp [ht]⟩
      · obtain ⟨b, hbmem, t, ht⟩ := groupedBatchAux_extends g gs sz hne
        exact ⟨b, List.mem_cons_of_mem _ hbmem, [], t, by simp [ht]⟩
    · simp only [groupedBatchAux]
      split
      · exact ih (batch ++ g₀) h
      · obtain ⟨b, hbmem, p, t, hpt⟩ := ih g₀ h
        exact ⟨b, List.mem_cons_of_mem _ hbmem, p, t, hpt⟩

theorem groupedBatchAux_oversized_self (g : List α) (gs : List (List α))
    (sz : Nat) (hlen : sz < g.length) :
    g ∈ groupedBatchAux g gs sz := by
  have hne : g ≠ [] := by
    intro h
    subst h
    simp at hlen
  cases gs with
  | nil => simp [groupedBatchAux, hne]
  | cons g₁ gs₁ =>
    simp only [groupedBatchAux]
    have : ¬(g.length = 0 ∨ g.length + g₁.length ≤ sz) := by
      push_neg
      constructor
      · simpa using hne
      · omega
    rw [if_neg this]
    exact List.mem_cons_self _ _

theorem groupedBatchAux_oversized (batch : List α) (groups : List (List α))
    (sz : Nat) (g : List α) (hg : g ∈ groups) (hlen : sz < g.length) :
    g ∈ groupedBatchAux batch groups sz := by
  induction groups generalizing batch with
  | nil => simp at hg
  | cons g₀ gs ih =>
    rcases List.mem_cons.mp hg with h | h
    · subst h
      simp only [groupedBatchAux]
      split
      · next hcond =>
        rcases hcond with h0 | hle
        · rw [List.length_eq_zero] at h0
          subst h0
          simpa using groupedBatchAux_oversized_self g gs sz hlen
        · omega
      · exact List.mem_cons_of_mem _ (groupedBatchAux_oversized_self g gs sz hlen)
    · simp only [groupedBatchAux]
      split
      · exact ih (batch ++ g₀) h
      · exact List.mem_cons_of_mem _ (ih g₀ h)

/-- C10: the batches yielded by `_grouped_batch` concatenate to exactly
the concatenation of the input groups; every yielded batch longer than
`sz` is a single input group yielded alone; every non-empty group lands
contiguously inside one yielded batch (never split across batches); and
every group longer than `sz` is yielded alone as one oversized batch. -/
theorem grouped_batch_correct (groups : List (List α)) (sz : Nat)
    (hsz : 0 < sz) :
    (grouped_batch groups sz).flatten = groups.flatten ∧
    (∀ b ∈ grouped_batch groups sz, b.length ≤ sz ∨ b ∈ groups) ∧
    (∀ g ∈ groups, g ≠ [] →
      ∃ b ∈ grouped_batch groups sz, ∃ p t, b = p ++ g ++ t) ∧
    (∀ g ∈ groups, sz < g.length → g ∈ grouped_batch groups sz) := by
  refine ⟨?_, ?_, ?_, ?_⟩
  · simpa using groupedBatchAux_join [] groups sz
  · intro b hb
    rcases groupedBatchAux_mem [] groups sz b hb with h | h | h
    · exact Or.inl h
    · subst h
      exact Or.inl (by simp)
    · exact Or.inr h
  · intro g hg hne
    exact groupedBatchAux_whole [] groups sz g hg hne
  · intro g hg hlen
    exact groupedBatchAux_oversized [] groups sz g hg hlen

/-- Witness for `grouped_batch_correct` at a concrete input. -/
theorem grouped_batch_correct_witness :
    0 < 3 ∧
    ((grouped_batch [[1, 2], [3], [4, 5, 6, 7], [8]] 3).flatten =
        ([[1, 2], [3], [4, 5, 6, 7], [8]] : List (List Nat)).flatten ∧
      (∀ b ∈ grouped_batch [[1, 2], [3], [4, 5, 6, 7], [8]] 3,
        b.length ≤ 3 ∨ b ∈ [[1, 2], [3], [4, 5, 6, 7], [8]]) ∧
      (∀ g ∈ [[1, 2], [3], [4, 5, 6, 7], [8]], g ≠ ([] : List Nat) →
        ∃ b ∈ grouped_batch [[1, 2], [3], [4, 5, 6, 7], [8]] 3,
          ∃ p t, b = p ++ g ++ t) ∧
      (∀ g ∈ [[1, 2], [3], [4, 5, 6, 7], [8]], 3 < g.length →
        g ∈ grouped_batch [[1, 2], [3], [4, 5, 6, 7], [8]] 3)) :=
  ⟨by decide, grouped_batch_correct [[1, 2], [3], [4, 5, 6, 7], [8]] 3 (by decide)⟩

/-- C9: the deletion walker never collects annotation links at the
WellSample level, even when WellSample ids were enumerated into
`parentids`; every other level whose id set is non-empty and whose query
returns links is included with exactly those links. -/
theorem populate_excludes_wellsample
    (queryLinks : String → List Nat → List Nat)
    (parentids : List (String × Option (List Nat)))
    (t : String) (ids : List Nat)
    (hmem : (t, some ids) ∈ parentids) (ht : t ∉ not_annotatable)
    (hids : ids ≠ []) (hq : queryLinks t ids ≠ []) :
    (∀ e ∈ populateMapAnnIds queryLinks parentids, e.1 ∉ not_annotatable) ∧
    (t, queryLinks t ids) ∈ populateMapAnnIds queryLinks parentids := by
  constructor
  · clear hmem
    induction parentids with
    | nil => intro e he; simp [populateMapAnnIds] at he
    | cons p ps ih =>
      intro e he
      simp only [populateMapAnnIds] at he
      split at he
      · exact ih e he
      · split at he
        · exact ih e he
        · next hnot _ =>
          rcases List.mem_cons.mp he with h | h
          · subst h; exact hnot
          · exact ih e h
  · induction parentids with
    | nil => simp at hmem
    | cons p ps ih =>
      rcases List.mem_cons.mp hmem with h | h
      · subst h
        have h1 : ids.isEmpty = false := by simpa using hids
        have h2 : (queryLinks t ids).isEmpty = false := by simpa using hq
        simp [populateMapAnnIds, get_annotations_for_deletion, ht, h1, h2]
      · simp only [populateMapAnnIds]
        split
        · exact ih h
        · split
          · exact ih h
          · exact List.mem_cons_of_mem _ (ih h)

/-- Witness for `populate_excludes_wellsample` at a concrete input:
queries returning one link per id, levels Well, WellSample and Image
enumerated. -/
theorem populate_excludes_wellsample_witness :
    (∀ e ∈ populateMapAnnIds (fun _ ids => ids)
        [("Well", some [7]), ("WellSample", some [8]), ("Image", some [9])],
      e.1 ∉ not_annotatable) ∧
    ("Well", (fun (_ : String) (ids : List Nat) => ids) "Well" [7]) ∈
      populateMapAnnIds (fun _ ids => ids)
        [("Well", some [7]), ("WellSample", some [8]), ("Image", some [9])] :=
  populate_excludes_wellsample (fun _ ids => ids)
    [("Well", some [7]), ("WellSample", some [8]), ("Image", some [9])]
    "Well" [7] (by simp) (by simp [not_annotatable]) (by simp) (by simp)

theorem batchList_flatten (sz : Nat) :
    ∀ (n : Nat) (l : List α), l.length ≤ n → (batchList l sz).flatten = l := by
  intro n
  induction n with
  | zero =>
    intro l h
    have : l = [] := List.eq_nil_of_length_eq_zero (Nat.le_zero.mp h)
    subst this
    simp [batchList]
  | succ n ih =>
    intro l h
    match l with
    | [] => simp [batchList]
    | x :: xs =>
      rw [batchList]
      split
      · simp
      · next hsz =>
        simp only [List.flatten_cons]
        rw [ih ((x :: xs).drop sz)
          (by simp only [List.length_drop, List.length_cons]; simp at h; omega)]
        exact List.take_append_drop sz (x :: xs)

theorem batchList_chunk_le (sz : Nat) (hsz : 0 < sz) :
    ∀ (n : Nat) (l : List α), l.length ≤ n →
      ∀ b ∈ batchList l sz, b.length ≤ sz := by
  intro n
  induction n with
  | zero =>
    intro l h b hb
    have : l = [] := List.eq_nil_of_length_eq_zero (Nat.le_zero.mp h)
    subst this
    simp [batchList] at hb
  | succ n ih =>
    intro l h b hb
    match l with
    | [] => simp [batchList] at hb
    | x :: xs =>
      rw [batchList] at hb
      rw [dif_neg (by omega)] at hb
      rcases List.mem_cons.mp hb with hb | hb
      · subst hb
        simp [List.length_take]
      · exact ih ((x :: xs).drop sz)
          (by simp only [List.length_drop, List.length_cons]; simp at h; omega) b hb

theorem write_to_omero_aux_dedicated (sz : Nat) (cmas : List (List L)) :
    ∀ links cur,
      dedicatedOf (write_to_omero_aux sz cmas links cur) =
        cmas.filter (fun c => sz ≤ c.length) := by
  induction cmas with
  | nil => intro links cur; simp [write_to_omero_aux, write_links, dedicatedOf]
  | cons batch cmas ih =>
    intro links cur
    simp only [write_to_omero_aux]
    split
    · next hlt =>
      rw [List.filter_cons_of_neg (by simpa using Nat.not_le.mpr hlt)]
      split
      · simp only [write_links, dedicatedOf]
        exact ih [] 0
      · exact ih _ _
    · next hge =>
      rw [List.filter_cons_of_pos (by simpa using Nat.le_of_not_lt hge)]
      simp only [save_ann_and_links, dedicatedOf]
      rw [ih links cur]

theorem write_to_omero_aux_combined (sz : Nat) (cmas : List (List L)) :
    ∀ links cur,
      combinedLinksOf (write_to_omero_aux sz cmas links cur) =
        links.flatten ++ (cmas.filter (fun c => c.length < sz)).flatten := by
  induction cmas with
  | nil =>
    intro links cur
    simp only [write_to_omero_aux, write_links, combinedLinksOf]
    rw [grouped_batch, groupedBatchAux_join]
    simp
  | cons batch cmas ih =>
    intro links cur
    simp only [write_to_omero_aux]
    split
    · next hlt =>
      rw [List.filter_cons_of_pos (by simpa using hlt)]
      split
      · simp only [write_links, combinedLinksOf]
        rw [grouped_batch, groupedBatchAux_join, ih [] 0]
        simp
      · rw [ih _ _]
        simp
    · next hge =>
      rw [List.filter_cons_of_neg (by simpa using hge)]
      simp only [save_ann_and_links, combinedLinksOf]
      exact ih links cur

theorem write_to_omero_aux_dedicated_batches (sz : Nat) (hsz : 0 < sz)
    (cmas : List (List L)) :
    ∀ links cur, ∀ op ∈ write_to_omero_aux sz cmas links cur,
      ∀ l bs, op = SaveOp.dedicated l bs →
        sz ≤ l.length ∧ bs = batchList l sz ∧ bs.flatten = l ∧
          ∀ b ∈ bs, b.length ≤ sz := by
  induction cmas with
  | nil =>
    intro links cur op hop l bs heq
    simp only [write_to_omero_aux, write_links] at hop
    simp at hop
    subst hop
    simp at heq
  | cons batch cmas ih =>
    intro links cur op hop l bs heq
    simp only [write_to_omero_aux] at hop
    split at hop
    · split at hop
      · rcases List.mem_cons.mp hop with h | h
        · subst h; simp [write_links] at heq
        · exact ih [] 0 op h l bs heq
      · exact ih _ _ op hop l bs heq
    · next hge =>
      rcases List.mem_cons.mp hop with h | h
      · subst h
        simp only [save_ann_and_links, SaveOp.dedicated.injEq] at heq
        obtain ⟨h1, h2⟩ := heq
        subst h1
        subst h2
        refine ⟨Nat.le_of_not_lt hge, rfl, ?_, ?_⟩
        · exact batchList_flatten sz _ _ (Nat.le_refl _)
        · exact batchList_chunk_le sz hsz _ _ (Nat.le_refl _)
      · exact ih links cur op h l bs heq

/-- C8: in the persist phase, the annotations saved through a dedicated
save-then-link-in-batches sequence are exactly those whose link count
meets or exceeds the batch size (their links going out in chunks of at
most the batch size), while the links of every annotation below the
batch size are all saved through the combined grouped `_write_links`
calls. -/
theorem write_to_omero_partition (cmas : List (List L)) (sz : Nat)
    (hsz : 0 < sz) :
    dedicatedOf (write_to_omero cmas sz) =
      cmas.filter (fun c => sz ≤ c.length) ∧
    combinedLinksOf (write_to_omero cmas sz) =
      (cmas.filter (fun c => c.length < sz)).flatten ∧
    (∀ op ∈ write_to_omero cmas sz, ∀ l bs, op = SaveOp.dedicated l bs →
      sz ≤ l.length ∧ bs = batchList l sz ∧ bs.flatten = l ∧
        ∀ b ∈ bs, b.length ≤ sz) := by
  refine ⟨?_, ?_, ?_⟩
  · exact write_to_omero_aux_dedicated sz cmas [] 0
  · simpa using write_to_omero_aux_combined sz cmas [] 0
  · exact write_to_omero_aux_dedicated_batches sz hsz cmas [] 0

/-- Witness for `write_to_omero_partition` at a concrete input: batch
size 2, one small annotation (1 link) and one large annotation
(3 links). -/
theorem write_to_omero_partition_witness :
    0 < 2 ∧
    (dedicatedOf (write_to_omero [[10], [20, 21, 22]] 2) =
        ([[10], [20, 21, 22]] : List (List Nat)).filter
          (fun c => 2 ≤ c.length) ∧
      combinedLinksOf (write_to_omero [[10], [20, 21, 22]] 2) =
        (([[10], [20, 21, 22]] : List (List Nat)).filter
          (fun c => c.length < 2)).flatten ∧
      (∀ op ∈ write_to_omero [[10], [20, 21, 22]] 2,
        ∀ l bs, op = SaveOp.dedicated l bs →
          2 ≤ l.length ∧ bs = batchList l 2 ∧ bs.flatten = l ∧
            ∀ b ∈ bs, b.length ≤ 2)) :=
  ⟨by decide, write_to_omero_partition [[10], [20, 21, 22]] 2 (by decide)⟩

theorem resolveCells_skip (resolveFn : BCol → String → List (BCol × String) →
    Except PyErr RValue) (full : List (BCol × String)) :
    ∀ (pre : List (BCol × String)) (p : BCol × String)
      (post : List (BCol × String)),
      (∀ q ∈ pre, ∃ v, resolveFn q.1 q.2 full = .ok v) →
      resolveFn p.1 p.2 full = .ok RValue.rskip →
      resolveCells resolveFn full (pre ++ p :: post) = .ok none := by
  intro pre
  induction pre with
  | nil =>
    intro p post _ hskip
    obtain ⟨c, v⟩ := p
    simp only [List.nil_append, resolveCells]
    rw [hskip]
  | cons q pre ih =>
    intro p post hpre hskip
    obtain ⟨qc, qv⟩ := q
    simp only [List.cons_append, resolveCells]
    obtain ⟨v, hv⟩ := hpre (qc, qv) (List.mem_cons_self _ _)
    rw [hv]
    have hrest := ih p post
      (fun r hr => hpre r (List.mem_cons_of_mem _ hr)) hskip
    cases v with
    | rskip => rfl
    | rint n => simp only [List.append_eq]; rw [hrest]
    | rfloat x => simp only [List.append_eq]; rw [hrest]
    | rstr s => simp only [List.append_eq]; rw [hrest]
    | rbool b => simp only [List.append_eq]; rw [hrest]

theorem resolveCells_some_length (resolveFn : BCol → String →
    List (BCol × String) → Except PyErr RValue)
    (full : List (BCol × String)) :
    ∀ (pairs : List (BCol × String)) (vals : List RValue),
      resolveCells resolveFn full pairs = .ok (some vals) →
      vals.length = pairs.length := by
  intro pairs
  induction pairs with
  | nil =>
    intro vals h
    simp only [resolveCells, Except.ok.injEq, Option.some.injEq] at h
    subst h
    rfl
  | cons p rest ih =>
    intro vals h
    obtain ⟨c, v⟩ := p
    simp only [resolveCells] at h
    cases hr : resolveFn c v full with
    | error e => rw [hr] at h; cases h
    | ok rv =>
      rw [hr] at h
      cases rv with
      | rskip => cases h
      | rint n =>
        cases hrc : resolveCells resolveFn full rest with
        | error e => rw [hrc] at h; cases h
        | ok o =>
          rw [hrc] at h
          cases o with
          | none => cases h
          | some vs =>
            simp only [Except.ok.injEq, Option.some.injEq] at h
            subst h
            simp [ih vs hrc]
      | rfloat x =>
        cases hrc : resolveCells resolveFn full rest with
        | error e => rw [hrc] at h; cases h
        | ok o =>
          rw [hrc] at h
          cases o with
          | none => cases h
          | some vs =>
            simp only [Except.ok.injEq, Option.some.injEq] at h
            subst h
            simp [ih vs hrc]
      | rstr s =>
        cases hrc : resolveCells resolveFn full rest with
        | error e => rw [hrc] at h; cases h
        | ok o =>
          rw [hrc] at h
          cases o with
          | none => cases h
          | some vs =>
            simp only [Except.ok.injEq, Option.some.injEq] at h
            subst h
            simp [ih vs hrc]
      | rbool b =>
        cases hrc : resolveCells resolveFn full rest with
        | error e => rw [hrc] at h; cases h
        | ok o =>
          rw [hrc] at h
          cases o with
          | none => cases h
          | some vs =>
            simp only [Except.ok.injEq, Option.some.injEq] at h
            subst h
            simp [ih vs hrc]

theorem fillColumns_all (cols : List BCol) :
    ∀ vals : List RValue, vals.length = cols.length →
      fillColumns cols vals = .ok (cols.zipWith
        (fun c v => BCol.mk c.name c.description c.cls (c.values ++ [v]))
        vals) := by
  induction cols with
  | nil =>
    intro vals h
    have : vals = [] := List.eq_nil_of_length_eq_zero h
    subst this
    rfl
  | cons c cs ih =>
    intro vals h
    cases vals with
    | nil => simp at h
    | cons v vs =>
      have hlen : vs.length = cs.length := by simpa using h
      simp only [fillColumns]
      rw [ih vs hlen]
      rfl

/-- C3: a row whose resolution hits the `Skip` signal on any cell is
excluded entirely from the batch — no column buffer grows, not even for
cells resolved before the skipping cell — while a fully resolved row
(including cells resolved to the sentinel −1) appends one value to
every column buffer; and the skip signal is a distinct value from the
sentinel −1. -/
theorem populate_row_skip_vs_sentinel
    (resolveFn : BCol → String → List (BCol × String) → Except PyErr RValue)
    (columns : List BCol) (row : List String)
    (pre : List (BCol × String)) (p : BCol × String)
    (post : List (BCol × String))
    (hlen : row.length ≤ columns.length) (hrow : row ≠ [])
    (hsplit : (columns.take row.length).zip row = pre ++ p :: post)
    (hpre : ∀ q ∈ pre, ∃ v,
      resolveFn q.1 q.2 ((columns.take row.length).zip row) = .ok v)
    (hskip : resolveFn p.1 p.2 ((columns.take row.length).zip row) =
      .ok RValue.rskip)
    (columns2 : List BCol) (row2 : List String) (vals2 : List RValue)
    (hlen2 : row2.length = columns2.length) (hrow2 : row2 ≠ [])
    (hres2 : resolveCells resolveFn ((columns2.take row2.length).zip row2)
      ((columns2.take row2.length).zip row2) = .ok (some vals2)) :
    populate_row resolveFn columns row = .ok columns ∧
    populate_row resolveFn columns2 row2 = .ok (columns2.zipWith
      (fun c v => BCol.mk c.name c.description c.cls (c.values ++ [v]))
      vals2) ∧
    RValue.rskip ≠ RValue.rint (-1) := by
  refine ⟨?_, ?_, by simp⟩
  · have hnone : resolveCells resolveFn
        ((columns.take row.length).zip row)
        ((columns.take row.length).zip row) = .ok none := by
      rw [hsplit]
      exact resolveCells_skip resolveFn _ pre p post
        (by rw [← hsplit]; exact hpre) (by rw [← hsplit]; exact hskip)
    cases row with
    | nil => exact absurd rfl hrow
    | cons r rs =>
      simp only [populate_row]
      rw [if_neg (Nat.not_lt.mpr hlen)]
      rw [hnone]
  · have hvlen : vals2.length = columns2.length := by
      have h1 := resolveCells_some_length resolveFn _ _ _ hres2
      rw [List.length_zip, List.length_take, hlen2] at h1
      simp at h1
      omega
    cases row2 with
    | nil => exact absurd rfl hrow2
    | cons r rs =>
      simp only [populate_row]
      rw [if_neg (Nat.not_lt.mpr (Nat.le_of_eq hlen2))]
      rw [hres2]
      exact fillColumns_all columns2 vals2 hvlen

/-- Witness for `populate_row_skip_vs_sentinel` at a concrete input. -/
theorem populate_row_skip_vs_sentinel_witness :
    (["missing", "x"] : List String).length ≤ rowDemoColumns.length ∧
    (populate_row rowDemoResolve rowDemoColumns ["missing", "x"] =
        .ok rowDemoColumns ∧
      populate_row rowDemoResolve rowDemoColumns ["nf", "y"] =
        .ok [BCol.mk "Plate" "" ColumnClass.plate [RValue.rint (-1)],
             BCol.mk "Well Type" "" ColumnClass.string [RValue.rstr "y"]] ∧
      RValue.rskip ≠ RValue.rint (-1)) :=
  ⟨by decide,
    populate_row_skip_vs_sentinel rowDemoResolve rowDemoColumns
      ["missing", "x"] []
      (BCol.mk "Plate" "" ColumnClass.plate [], "missing")
      [(BCol.mk "Well Type" "" ColumnClass.string [], "x")]
      (by decide) (by decide) (by rfl) (fun q hq => nomatch hq) (by rfl)
      rowDemoColumns ["nf", "y"] [RValue.rint (-1), RValue.rstr "y"]
      (by decide) (by decide) (by rfl)⟩

theorem renameAndCompanions_spec (target : TargetClass) (c : BCol) :
    (renameAndCompanions target c).2 =
      companionsSpec target (renameAndCompanions target c).1 := by
  obtain ⟨name, desc, cls, vals⟩ := c
  by_cases htd : target = TargetClass.dataset <;>
    cases cls <;>
      simp [renameAndCompanions, companionsSpec, strNameCol, htd]

theorem renameAndCompanions_cls (target : TargetClass) (c : BCol) :
    (renameAndCompanions target c).1.cls = c.cls := by
  obtain ⟨name, desc, cls, vals⟩ := c
  by_cases htd : target = TargetClass.dataset <;>
    cases cls <;> simp [renameAndCompanions, htd]

theorem processColumns_classes (target : TargetClass) (cols : List BCol) :
    (processColumns target cols).1.map (·.cls) = cols.map (·.cls) := by
  induction cols with
  | nil => rfl
  | cons c rest ih =>
    simp [processColumns, renameAndCompanions_cls, ih]

theorem processColumns_app (target : TargetClass) (cols : List BCol) :
    (processColumns target cols).2 =
      ((processColumns target cols).1.map (companionsSpec target)).flatten := by
  induction cols with
  | nil => rfl
  | cons c rest ih =>
    simp only [processColumns, List.map_cons, List.flatten_cons]
    rw [ih, renameAndCompanions_spec]

/-- C5: whenever the constructed schema contains both a well-identifier
column and an image-identifier column, `_create_columns` raises the
schema error from `columns_sanity_check`; the schema is never produced,
so no value is ever resolved or written. -/
theorem create_columns_well_image_error (target : TargetClass)
    (headers : List String) (types : Option (List String)) (base : List BCol)
    (hbase : createColumnsBase target headers types = .ok base)
    (hwell : ColumnClass.well ∈ base.map (·.cls))
    (himage : ColumnClass.image ∈ base.map (·.cls)) :
    create_columns target headers types = .error (.metadataError
      "Well Column and Image Column cannot be resolved at the same time. Pick one.") := by
  have hw : ColumnClass.well ∈ (processColumns target base).1.map (·.cls) := by
    rw [processColumns_classes]; exact hwell
  have hi : ColumnClass.image ∈ (processColumns target base).1.map (·.cls) := by
    rw [processColumns_classes]; exact himage
  simp only [create_columns, hbase, columns_sanity_check]
  rw [if_pos ⟨hw, hi⟩]

/-- Witness for `create_columns_well_image_error` at a concrete input. -/
theorem create_columns_well_image_error_witness :
    createColumnsBase TargetClass.plate ["Well", "Image"] none =
      .ok [BCol.mk "Well" "" ColumnClass.well [],
           BCol.mk "Image" "" ColumnClass.image []] ∧
    create_columns TargetClass.plate ["Well", "Image"] none =
      .error (.metadataError
        "Well Column and Image Column cannot be resolved at the same time. Pick one.") :=
  ⟨by rfl,
    create_columns_well_image_error TargetClass.plate ["Well", "Image"] none
      [BCol.mk "Well" "" ColumnClass.well [],
       BCol.mk "Image" "" ColumnClass.image []]
      (by rfl) (by decide) (by decide)⟩

/-- C4 counterexample: for a Dataset target with an explicit `roi` typed
column, `_create_columns` appends no companion name column at all, even
though a roi identifier column is present and no id/name conflict
exists — the claim's "exactly one companion per identifier column" fails
here. -/
theorem create_columns_dataset_roi_counterexample :
    create_columns TargetClass.dataset ["myroi"] (some ["roi"]) =
      .ok [BCol.mk "myroi" "" ColumnClass.roi []] := by rfl

/-- C4 (amended): on every successful run the output is the processed
columns followed by the companions, where each plate/well/image column
and — except for Dataset targets — each roi column contributes exactly
one companion name column, each explicit `Image Name`/`Roi Name` column
contributes exactly one id companion, and no companion at all is
appended when a roi id column and an explicit `Roi Name` column are both
present (the only id/name conflict the sanity check detects). -/
theorem create_columns_companions (target : TargetClass)
    (headers : List String) (types : Option (List String)) (cols : List BCol)
    (h : create_columns target headers types = .ok cols) :
    ∃ base renamed, createColumnsBase target headers types = .ok base ∧
      renamed = (processColumns target base).1 ∧
      (¬(ColumnClass.roi ∈ renamed.map (·.cls) ∧
          "Roi Name" ∈ renamed.map (·.name)) →
        cols = renamed ++ (renamed.map (companionsSpec target)).flatten) ∧
      ((ColumnClass.roi ∈ renamed.map (·.cls) ∧
          "Roi Name" ∈ renamed.map (·.name)) →
        cols = renamed) ∧
      ¬(ColumnClass.well ∈ renamed.map (·.cls) ∧
          ColumnClass.image ∈ renamed.map (·.cls)) := by
  cases hb : createColumnsBase target headers types with
  | error e => rw [create_columns, hb] at h; cases h
  | ok base =>
    refine ⟨base, (processColumns target base).1, rfl, rfl, ?_⟩
    simp only [create_columns, hb] at h
    cases hs : columns_sanity_check (processColumns target base).1 with
    | error e => rw [hs] at h; cases h
    | ok b =>
      rw [hs] at h
      have hfacts := hs
      unfold columns_sanity_check at hfacts
      cases b with
      | false =>
        simp only [Except.ok.injEq] at h
        split at hfacts
        · simp at hfacts
        · next hnwi =>
          split at hfacts
          · next hroi => exact ⟨fun hn => absurd hroi hn, fun _ => h.symm, hnwi⟩
          · simp at hfacts
      | true =>
        simp only [Except.ok.injEq] at h
        split at hfacts
        · simp at hfacts
        · next hnwi =>
          split at hfacts
          · simp at hfacts
          · next hnroi =>
            refine ⟨fun _ => ?_, fun hroi => absurd hroi hnroi, hnwi⟩
            rw [← processColumns_app]
            exact h.symm

/-- Witness for `create_columns_companions` at a concrete input: a
Screen header with a well column and a plain column gets exactly one
appended `Well Name` companion. -/
theorem create_columns_companions_witness :
    create_columns TargetClass.screen ["Well", "Extra"] none =
      .ok [BCol.mk "Well" "" ColumnClass.well [],
           BCol.mk "Extra" "" ColumnClass.string [],
           BCol.mk "Well Name" "" ColumnClass.string []] ∧
    (∃ base renamed,
      createColumnsBase TargetClass.screen ["Well", "Extra"] none = .ok base ∧
      renamed = (processColumns TargetClass.screen base).1 ∧
      (¬(ColumnClass.roi ∈ renamed.map (·.cls) ∧
          "Roi Name" ∈ renamed.map (·.name)) →
        [BCol.mk "Well" "" ColumnClass.well [],
         BCol.mk "Extra" "" ColumnClass.string [],
         BCol.mk "Well Name" "" ColumnClass.string []] =
          renamed ++
            (renamed.map (companionsSpec TargetClass.screen)).flatten) ∧
      ((ColumnClass.roi ∈ renamed.map (·.cls) ∧
          "Roi Name" ∈ renamed.map (·.name)) →
        [BCol.mk "Well" "" ColumnClass.well [],
         BCol.mk "Extra" "" ColumnClass.string [],
         BCol.mk "Well Name" "" ColumnClass.string []] = renamed) ∧
      ¬(ColumnClass.well ∈ renamed.map (·.cls) ∧
          ColumnClass.image ∈ renamed.map (·.cls))) :=
  ⟨by rfl,
    create_columns_companions TargetClass.screen ["Well", "Extra"] none
      [BCol.mk "Well" "" ColumnClass.well [],
       BCol.mk "Extra" "" ColumnClass.string [],
       BCol.mk "Well Name" "" ColumnClass.string []] (by rfl)⟩

/-- C6 counterexample: a first row whose first cell merely contains the
`# header` marker (without beginning with it) is still treated as a
type-annotation row — the second row becomes the header — refuting the
claim's "unless it begins with the recognized type-annotation marker". -/
theorem preprocess_header_counterexample :
    preprocess_header [["l# header ", "s"], ["A", "B"]] none =
      .ok (["A", "B"], some ["l", "s"]) ∧
    pyStartsWith REGEX_HEADER_SPECIFIER "l# header " = false ∧
    pyStartsWith "# header" "l# header " = false :=
  ⟨by rfl, by decide, by decide⟩

/-- C6 (amended): the first row is the header unless its first cell
*contains* the marker `# header` anywhere, in which case the row
supplies one type token per column — every occurrence of `"# header "`
stripped from the first token — and the following row is the header. -/
theorem preprocess_header_marker (c0 : String) (frest : List String)
    (rest : List (List String)) (ctypes : Option (List String))
    (d0 : String) (drest : List String) (header : List String)
    (more : List (List String)) (ts : List String)
    (hnc : pyContains "# header" c0 = false)
    (ha : (c0 :: frest).any (fun h => h = "") = false)
    (hmc : pyContains "# header" d0 = true)
    (hb : (d0 :: drest).any (fun h => h = "") = false)
    (hts : parse_column_types
      (pyReplace d0 REGEX_HEADER_SPECIFIER "" :: drest) = .ok ts) :
    preprocess_header ((c0 :: frest) :: rest) ctypes =
      .ok (c0 :: frest, ctypes) ∧
    preprocess_header ((d0 :: drest) :: header :: more) none =
      .ok (header, some ts) := by
  constructor
  · simp [preprocess_header, is_row_column_types, hnc, ha]
  · simp [preprocess_header, is_row_column_types, hmc, hb,
      get_column_types, hts, Except.map]

/-- Witness for `preprocess_header_marker` at concrete inputs. -/
theorem preprocess_header_marker_witness :
    pyContains "# header" "Plate" = false ∧
    pyContains "# header" "# header s" = true ∧
    (preprocess_header [["Plate", "T"], ["p1", "c"]] none =
        .ok (["Plate", "T"], none) ∧
      preprocess_header [["# header s", "l"], ["A", "B"]] none =
        .ok (["A", "B"], some ["s", "l"])) :=
  ⟨by decide, by decide,
    preprocess_header_marker "Plate" ["T"] [["p1", "c"]] none
      "# header s" ["l"] ["A", "B"] [] ["s", "l"]
      (by decide) (by decide) (by decide) (by decide) (by rfl)⟩

theorem dget_dset [DecidableEq K] (d : List (K × V)) (k2 k : K) (v : V) :
    dget (dset d k2 v) k = if k = k2 then some v else dget d k := by
  induction d with
  | nil =>
    simp only [dset, dget]
    by_cases h : k = k2
    · simp [h]
    · have h2 : ¬(k2 = k) := fun he => h he.symm
      simp [h, h2, dget]
  | cons p d ih =>
    obtain ⟨pk, pv⟩ := p
    simp only [dset]
    by_cases hp : pk = k2
    · subst hp
      simp only [if_pos rfl, dget]
      by_cases h : pk = k
      · subst h
        simp
      · have h2 : ¬(k = pk) := fun he => h he.symm
        simp [h, h2]
    · rw [if_neg hp]
      simp only [dget]
      by_cases h : pk = k
      · subst h
        have h2 : ¬(pk = k2) := hp
        simp [h2]
      · simp [h, ih]

theorem find?_append_or {α : Type u} (p : α → Bool) (l1 l2 : List α) :
    (l1 ++ l2).find? p =
      match l1.find? p with
      | some x => some x
      | none => l2.find? p := by
  induction l1 with
  | nil => simp
  | cons x l1 ih =>
    by_cases h : p x <;> simp [List.find?_cons, h, ih]

theorem screen_plates_by_name_last_aux (plates : List (Nat × String)) :
    ∀ (d : List (String × Nat)) (nm : String),
      dget (plates.foldl (fun d p => dset d p.2 p.1) d) nm =
        match plates.reverse.find? (fun p => decide (p.2 = nm)) with
        | some p => some p.1
        | none => dget d nm := by
  induction plates with
  | nil => intro d nm; simp
  | cons p rest ih =>
    intro d nm
    simp only [List.foldl_cons, List.reverse_cons]
    rw [ih, find?_append_or]
    cases hf : rest.reverse.find? (fun q => decide (q.2 = nm)) with
    | some q => rfl
    | none =>
      simp only [List.find?_singleton]
      by_cases h : p.2 = nm
      · simp [h, dget_dset]
      · have h2 : ¬(nm = p.2) := fun he => h he.symm
        simp [h, h2, dget_dset]

theorem dataset_images_conflict (imgs : List (Nat × String)) :
    ∀ d : List (String × Nat), (∃ j ∈ imgs, (dget d j.2).isSome) →
      ∃ e, dataset_images_by_name d imgs = .error e := by
  induction imgs with
  | nil => intro d h; simp at h
  | cons i rest ih =>
    intro d h
    by_cases hi : (dget d i.2).isSome
    · exact ⟨.pyException ("Image named " ++ i.2 ++ " present."),
        by simp [dataset_images_by_name, hi]⟩
    · obtain ⟨j, hj, hjs⟩ := h
      rcases List.mem_cons.mp hj with hji | hjr
      · subst hji; exact absurd hjs hi
      · have : (dget (dset d i.2 i.1) j.2).isSome := by
          rw [dget_dset]
          by_cases hje : j.2 = i.2 <;> simp [hje, hjs]
        obtain ⟨e, he⟩ := ih (dset d i.2 i.1) ⟨j, hjr, this⟩
        exact ⟨e, by simp [dataset_images_by_name, hi, he]⟩

theorem dataset_images_dup (imgs : List (Nat × String)) :
    ∀ d : List (String × Nat), ¬(imgs.map (·.2)).Nodup →
      ∃ e, dataset_images_by_name d imgs = .error e := by
  induction imgs with
  | nil => intro d h; simp at h
  | cons i rest ih =>
    intro d h
    by_cases hi : (dget d i.2).isSome
    · exact ⟨.pyException ("Image named " ++ i.2 ++ " present."),
        by simp [dataset_images_by_name, hi]⟩
    · simp only [List.map_cons, List.nodup_cons] at h
      rw [not_and_or] at h
      have hstep : dataset_images_by_name d (i :: rest) =
          dataset_images_by_name (dset d i.2 i.1) rest := by
        simp [dataset_images_by_name, hi]
      rcases h with h | h
      · rw [not_not] at h
        obtain ⟨j, hjr, hje⟩ := List.mem_map.mp h
        have : (dget (dset d i.2 i.1) j.2).isSome := by
          rw [dget_dset, hje]
          simp
        obtain ⟨e, he⟩ := dataset_images_conflict rest _ ⟨j, hjr, this⟩
        exact ⟨e, by rw [hstep, he]⟩
      · obtain ⟨e, he⟩ := ih (dset d i.2 i.1) h
        exact ⟨e, by rw [hstep, he]⟩

theorem image_rois_flag (rois : List (Nat × Option String)) :
    ∀ st : Bool × List (Option String × Nat),
      (¬(rois.map (·.2)).Nodup ∨ st.1 = true ∨
        ∃ j ∈ rois, (dget st.2 j.2).isSome) →
      (image_rois_by_name st rois).1 = true := by
  induction rois with
  | nil =>
    intro st h
    rcases h with h | h | h
    · simp at h
    · simpa [image_rois_by_name] using h
    · simp at h
  | cons r rest ih =>
    intro st h
    simp only [image_rois_by_name]
    by_cases hr : (dget st.2 r.2).isSome
    · exact ih _ (Or.inr (Or.inl (by simp [hr])))
    · rcases h with h | h | h
      · simp only [List.map_cons, List.nodup_cons] at h
        rw [not_and_or] at h
        rcases h with h | h
        · rw [not_not] at h
          obtain ⟨j, hjr, hje⟩ := List.mem_map.mp h
          refine ih _ (Or.inr (Or.inr ⟨j, hjr, ?_⟩))
          simp only
          rw [dget_dset, hje]
          simp
        · exact ih _ (Or.inl h)
      · refine ih _ (Or.inr (Or.inl ?_))
        simp [hr, h]
      · obtain ⟨j, hj, hjs⟩ := h
        rcases List.mem_cons.mp hj with hji | hjr
        · subst hji; exact absurd hjs hr
        · refine ih _ (Or.inr (Or.inr ⟨j, hjr, ?_⟩))
          simp only
          rw [dget_dset]
          by_cases hje : j.2 = r.2 <;> simp [hje, hjs]

/-- C7 counterexample: the Screen loader builds `plates_by_name` from
two plates sharing a name with no error and no ambiguity flag — name
resolution silently returns the later plate (id 2), refuting "every
Hierarchy Loader detects and flags duplicate display names … rather
than silently resolving a duplicate name to an arbitrary candidate". -/
theorem screen_duplicate_plate_counterexample :
    screen_plates_by_name [(1, "P"), (2, "P")] = [("P", 2)] ∧
    resolve_plate (screen_plates_by_name [(1, "P"), (2, "P")]) "P" =
      RValue.rint 2 := by
  constructor <;> rfl

/-- C7 (amended): the Dataset loader raises on any duplicate image
name and the Image loader marks duplicate ROI names as ambiguous, but
the Screen loader performs no duplicate detection for plate names — a
duplicate plate name silently resolves to the most recently loaded
plate. -/
theorem loaders_duplicate_names (imgs : List (Nat × String))
    (rois : List (Nat × Option String)) (plates : List (Nat × String))
    (hdupI : ¬(imgs.map (·.2)).Nodup) (hdupR : ¬(rois.map (·.2)).Nodup) :
    (∃ e, dataset_images_by_name [] imgs = .error e) ∧
    (image_rois_by_name (false, []) rois).1 = true ∧
    (∀ nm, dget (screen_plates_by_name plates) nm =
      match plates.reverse.find? (fun p => decide (p.2 = nm)) with
      | some p => some p.1
      | none => none) := by
  refine ⟨dataset_images_dup imgs [] hdupI,
    image_rois_flag rois (false, []) (Or.inl hdupR), ?_⟩
  intro nm
  rw [screen_plates_by_name, screen_plates_by_name_last_aux]
  cases plates.reverse.find? (fun p => decide (p.2 = nm)) <;> rfl

/-- Witness for `loaders_duplicate_names` at concrete inputs. -/
theorem loaders_duplicate_names_witness :
    ¬((([(1, "a"), (2, "a")] : List (Nat × String)).map (·.2)).Nodup) ∧
    ((∃ e, dataset_images_by_name [] [(1, "a"), (2, "a")] = .error e) ∧
      (image_rois_by_name (false, [])
        [(1, some "r"), (2, some "r")]).1 = true ∧
      (∀ nm, dget (screen_plates_by_name [(1, "P"), (2, "P")]) nm =
        match ([(1, "P"), (2, "P")] : List (Nat × String)).reverse.find?
            (fun p => decide (p.2 = nm)) with
        | some p => some p.1
        | none => none)) :=
  ⟨by decide,
    loaders_duplicate_names [(1, "a"), (2, "a")]
      [(1, some "r"), (2, some "r")] [(1, "P"), (2, "P")]
      (by decide) (by decide)⟩

/-- C1 counterexample: with NaN substitution enabled, `resolve` returns
floating-point NaN for an empty cell of a *long* column too — refuting
the claim that substitution happens "only for floating-point (double)
columns, never for long columns". -/
theorem resolve_empty_long_nan_counterexample :
    resolve (emptyCtx true) (BCol.mk "Count" "" ColumnClass.long []) "" [] =
      .ok (.rfloat .nan) := by rfl

/-- C1 (amended): for every long or double column (apart from the
columns named `shape` and the long columns named `row`/`column`, which
take dedicated branches first), an empty cell raises a `ValueError`
when NaN substitution is disabled, and resolves to floating-point NaN
— for long columns just as for double columns — when it is enabled. -/
theorem resolve_empty_numeric (ctx : ResolverCtx) (col : BCol)
    (row : List (BCol × String))
    (hcls : col.cls = ColumnClass.long ∨ col.cls = ColumnClass.double)
    (hshape : pyToLower col.name ≠ "shape")
    (hrowcol : ¬((pyToLower col.name = "row" ∨
      pyToLower col.name = "column") ∧ col.cls = ColumnClass.long)) :
    resolve ctx col "" row =
      if ctx.allow_nan then .ok (.rfloat .nan)
      else .error (.valueError
        "Empty Double or Long value. Use --allow_nan to convert to NaN") := by
  rcases hcls with h | h
  · have hrc : ¬(pyToLower col.name = "row" ∨ pyToLower col.name = "column") :=
      fun hor => hrowcol ⟨hor, h⟩
    simp [resolve, h, hshape, hrc]
  · simp [resolve, h, hshape]

/-- Witness for `resolve_empty_numeric` at a concrete input (NaN
substitution disabled: the empty long cell raises). -/
theorem resolve_empty_numeric_witness :
    pyToLower "Count" ≠ "shape" ∧
    resolve (emptyCtx false) (BCol.mk "Count" "" ColumnClass.long []) "" [] =
      (if (emptyCtx false).allow_nan then .ok (.rfloat .nan)
       else .error (.valueError
         "Empty Double or Long value. Use --allow_nan to convert to NaN")) :=
  ⟨by decide,
    resolve_empty_numeric (emptyCtx false)
      (BCol.mk "Count" "" ColumnClass.long []) []
      (Or.inl rfl) (by decide) (by decide)⟩

theorem natDigitsRevAux_eq_digits (fuel : Nat) :
    ∀ n : Nat, n ≤ fuel → natDigitsRevAux fuel n = Nat.digits 10 n := by
  induction fuel with
  | zero =>
    intro n h
    have h0 : n = 0 := Nat.le_zero.mp h
    subst h0
    simp [natDigitsRevAux]
  | succ fuel ih =>
    intro n h
    cases n with
    | zero => simp [natDigitsRevAux]
    | succ m =>
      have hdiv : (m + 1) / 10 ≤ fuel := by
        have := Nat.div_lt_self (Nat.succ_pos m) (by norm_num : (1 : Nat) < 10)
        omega
      rw [natDigitsRevAux, ih ((m + 1) / 10) hdiv,
        Nat.digits_def' (by norm_num : (1 : Nat) < 10) (Nat.succ_pos m)]

theorem digitChar_toNat (d : Nat) (hd : d < 10) :
    (Char.ofNat (48 + d)).toNat = 48 + d := by
  interval_cases d <;> decide

theorem foldl_digit_chars (l : List Nat) :
    ∀ acc : Nat, (∀ d ∈ l, d < 10) →
      l.foldl (fun a d => a * 10 + ((Char.ofNat (48 + d)).toNat - 48)) acc =
        l.foldl (fun a d => a * 10 + d) acc := by
  induction l with
  | nil => intro acc _; rfl
  | cons d rest ih =>
    intro acc hb
    simp only [List.foldl_cons]
    rw [digitChar_toNat d (hb d (List.mem_cons_self _ _))]
    have h48 : 48 + d - 48 = d := by omega
    rw [h48, ih _ (fun x hx => hb x (List.mem_cons_of_mem _ hx))]

theorem natVal_digits_reverse (fuel : Nat) :
    ∀ n : Nat, n ≤ fuel →
      ((Nat.digits 10 n).reverse).foldl (fun a d => a * 10 + d) 0 = n := by
  induction fuel with
  | zero =>
    intro n h
    have h0 : n = 0 := Nat.le_zero.mp h
    subst h0
    simp
  | succ fuel ih =>
    intro n h
    cases n with
    | zero => simp
    | succ m =>
      have hdiv : (m + 1) / 10 ≤ fuel := by
        have := Nat.div_lt_self (Nat.succ_pos m) (by norm_num : (1 : Nat) < 10)
        omega
      rw [Nat.digits_def' (by norm_num : (1 : Nat) < 10) (Nat.succ_pos m),
        List.reverse_cons, List.foldl_append, ih ((m + 1) / 10) hdiv]
      simp only [List.foldl_cons, List.foldl_nil]
      omega

theorem asString_toList (l : List Char) : (l.asString).toList = l := rfl

/-- `int(str(n)) = n`: `digitsToNat` is a left inverse of `natStr`. -/
theorem digitsToNat_natStr (n : Nat) : digitsToNat (natStr n) = n := by
  unfold natStr
  by_cases h : n = 0
  · subst h
    rfl
  · rw [if_neg h, natDigitsRevAux_eq_digits n n (Nat.le_refl n)]
    unfold digitsToNat
    rw [asString_toList]
    have h1 : ((Nat.digits 10 n).map (fun d => Char.ofNat (48 + d))).reverse =
        (Nat.digits 10 n).reverse.map (fun d => Char.ofNat (48 + d)) := by
      rw [List.map_reverse]
    rw [h1, List.foldl_map]
    rw [foldl_digit_chars ((Nat.digits 10 n).reverse) 0
      (fun d hd => Nat.digits_lt_base (by norm_num)
        (List.mem_reverse.mp hd))]
    exact natVal_digits_reverse n n (Nat.le_refl n)

/-- `str` on naturals is injective. -/
theorem natStr_inj (m n : Nat) (h : natStr m = natStr n) : m = n := by
  have h1 := congrArg digitsToNat h
  rwa [digitsToNat_natStr, digitsToNat_natStr] at h1

theorem AS_ALPHA_getElem?_inj (i j : Nat) (L : String)
    (hi : AS_ALPHA[i]? = some L) (hj : AS_ALPHA[j]? = some L) : i = j := by
  have hnd : AS_ALPHA.Nodup := by decide
  have hil : i < AS_ALPHA.length := by
    by_contra hc
    rw [List.getElem?_eq_none (Nat.le_of_not_lt hc)] at hi
    cases hi
  exact List.getElem?_inj hil hnd (hi.trans hj.symm)

theorem lookup2_step (wbl : PlateIndex) (letter key : String) (w : WellRec)
    (L K : String) :
    lookup2 (dset wbl letter
        (dset ((dget wbl letter).getD []) key w)) L K =
      if L = letter then (if K = key then some w else lookup2 wbl letter K)
      else lookup2 wbl L K := by
  unfold lookup2
  rw [dget_dset]
  by_cases hL : L = letter
  · rw [if_pos hL, if_pos hL]
    show dget (dset ((dget wbl letter).getD []) key w) K =
      if K = key then some w else lookup2 wbl letter K
    rw [dget_dset]
    by_cases hK : K = key
    · rw [if_pos hK, if_pos hK]
    · rw [if_neg hK, if_neg hK]
      unfold lookup2
      cases dget wbl letter with
      | none => rfl
      | some cols => rfl
  · rw [if_neg hL, if_neg hL]

theorem find?_unique {α : Type u} (p : α → Bool) (l : List α) (w : α)
    (hw : w ∈ l) (hpw : p w = true)
    (huniq : ∀ x ∈ l, p x = true → x = w) : l.find? p = some w := by
  induction l with
  | nil => cases hw
  | cons x xs ih =>
    by_cases hx : p x
    · rw [List.find?_cons_of_pos _ hx]
      rw [huniq x (List.mem_cons_self _ _) hx]
    · rw [List.find?_cons_of_neg _ hx]
      have hwx : w ∈ xs := by
        rcases List.mem_cons.mp hw with he | hxs
        · subst he; exact absurd hpw hx
        · exact hxs
      exact ih hwx (fun y hy hpy => huniq y (List.mem_cons_of_mem _ hy) hpy)

theorem parse_plate_aux_lookup (wells : List WellRec) :
    ∀ wbl built : PlateIndex, parse_plate_aux wbl wells = .ok built →
      ∀ L K : String, lookup2 built L K =
        match wells.reverse.find? (fun x =>
            decide (AS_ALPHA[x.row]? = some L) &&
              decide (natStr (x.col + 1) = K)) with
        | some x => some x
        | none => lookup2 wbl L K := by
  induction wells with
  | nil =>
    intro wbl built h L K
    simp only [parse_plate_aux, Except.ok.injEq] at h
    subst h
    simp
  | cons w ws ih =>
    intro wbl built h L K
    simp only [parse_plate_aux] at h
    cases hrow : AS_ALPHA[w.row]? with
    | none => rw [hrow] at h; cases h
    | some letter =>
      rw [hrow] at h
      rw [ih _ built h L K]
      simp only [List.reverse_cons]
      rw [find?_append_or]
      cases hf : ws.reverse.find? (fun x =>
          decide (AS_ALPHA[x.row]? = some L) &&
            decide (natStr (x.col + 1) = K)) with
      | some q => rfl
      | none =>
        simp only [List.find?_singleton]
        rw [lookup2_step]
        by_cases hL : L = letter
        · by_cases hK : K = natStr (w.col + 1)
          · have hpw : (decide (AS_ALPHA[w.row]? = some L) &&
                decide (natStr (w.col + 1) = K)) = true := by
              rw [hrow, hL, hK]
              simp
            rw [if_pos hL, if_pos hK, if_pos hpw]
          · have hpw : (decide (AS_ALPHA[w.row]? = some L) &&
                decide (natStr (w.col + 1) = K)) = false := by
              have : ¬(natStr (w.col + 1) = K) := fun he => hK he.symm
              simp [this]
            rw [if_pos hL, if_neg hK, if_neg (by simp [hpw]), hL]
        · have hpw : (decide (AS_ALPHA[w.row]? = some L) &&
              decide (natStr (w.col + 1) = K)) = false := by
            have : ¬(AS_ALPHA[w.row]? = some L) := by
              rw [hrow]
              intro he
              exact hL (Option.some.inj he).symm
            simp [this]
          rw [if_neg hL, if_neg (by simp [hpw])]

theorem well_coord_unique (wells : List WellRec)
    (hnodup : (wells.map fun w => (w.row, w.col)).Nodup)
    (w x : WellRec) (hw : w ∈ wells) (hx : x ∈ wells) (L : String)
    (hwr : AS_ALPHA[w.row]? = some L) (hxr : AS_ALPHA[x.row]? = some L)
    (hcol : natStr (x.col + 1) = natStr (w.col + 1)) : x = w := by
  have hr : x.row = w.row := AS_ALPHA_getElem?_inj _ _ L hxr hwr
  have hc : x.col = w.col := by
    have := natStr_inj _ _ hcol
    omega
  refine List.inj_on_of_nodup_map hnodup hx hw ?_
  simp [hr, hc]

theorem resolve_well_eval (pname : String) (wbl : PlateIndex)
    (rowctx : List (BCol × String)) (value letters digits : String)
    (hm : wellRegexMatch value = some (letters, digits)) :
    resolve_well [(pname, wbl)] rowctx value =
      match lookup2 wbl (pyToLower letters) (natStr (digitsToNat digits)) with
      | some w => .ok (.rint w.id)
      | none => .ok (.rint (-1)) := by
  unfold resolve_well lookup2
  rw [hm]
  cases hget : dget wbl (pyToLower letters) with
  | none => simp [hget]
  | some cols =>
    cases hcols : dget cols (natStr (digitsToNat digits)) with
    | none => simp [hget, hcols]
    | some w => simp [hget, hcols]

/-- C2: over the single loaded plate, a regex-valid coordinate
`letters ++ digits` resolves to the id of the well whose 0-based row
index maps to the lowered letters through the `AS_ALPHA` table
(two-letter tokens past row 26) and whose 0-based column is the decimal
value of `digits` minus one; a coordinate with no matching well yields
the −1 sentinel, not an exception; a string failing the regex raises a
`MetadataError`. -/
theorem resolve_well_coordinates (wells : List WellRec)
    (built : PlateIndex) (pname : String)
    (rowctx : List (BCol × String)) (value letters digits : String)
    (hload : parse_plate wells = .ok built)
    (hnodup : (wells.map fun w => (w.row, w.col)).Nodup) :
    (wellRegexMatch value = none →
      resolve_well [(pname, built)] rowctx value =
        .error (.metadataError
          ("Cannot parse well identifier " ++ value))) ∧
    (wellRegexMatch value = some (letters, digits) →
      (∀ w ∈ wells, AS_ALPHA[w.row]? = some (pyToLower letters) →
        w.col + 1 = digitsToNat digits →
        resolve_well [(pname, built)] rowctx value = .ok (.rint w.id)) ∧
      ((∀ w ∈ wells, ¬(AS_ALPHA[w.row]? = some (pyToLower letters) ∧
          w.col + 1 = digitsToNat digits)) →
        resolve_well [(pname, built)] rowctx value = .ok (.rint (-1)))) := by
  constructor
  · intro hnone
    simp [resolve_well, hnone]
  · intro hm
    constructor
    · intro w hw hrow hcol
      rw [resolve_well_eval pname built rowctx value letters digits hm]
      have hfound : lookup2 built (pyToLower letters)
          (natStr (digitsToNat digits)) = some w := by
        rw [parse_plate_aux_lookup wells [] built hload]
        have hcolK : natStr (w.col + 1) = natStr (digitsToNat digits) := by
          rw [hcol]
        have hpw : (decide (AS_ALPHA[w.row]? = some (pyToLower letters)) &&
            decide (natStr (w.col + 1) = natStr (digitsToNat digits))) =
              true := by
          simp [hrow, hcolK]
        rw [find?_unique _ wells.reverse w (List.mem_reverse.mpr hw) hpw]
        intro x hxmem hpx
        simp only [Bool.and_eq_true, decide_eq_true_eq] at hpx
        exact well_coord_unique wells hnodup w x hw
          (List.mem_reverse.mp hxmem) (pyToLower letters) hrow hpx.1
          (hpx.2.trans hcolK.symm)
      rw [hfound]
    · intro hnone
      rw [resolve_well_eval pname built rowctx value letters digits hm]
      have hmiss : lookup2 built (pyToLower letters)
          (natStr (digitsToNat digits)) = none := by
        rw [parse_plate_aux_lookup wells [] built hload]
        have hfn : wells.reverse.find? (fun x =>
            decide (AS_ALPHA[x.row]? = some (pyToLower letters)) &&
              decide (natStr (x.col + 1) = natStr (digitsToNat digits))) =
            none := by
          rw [List.find?_eq_none]
          intro x hxmem hpx
          simp only [Bool.and_eq_true, decide_eq_true_eq] at hpx
          have hxc : x.col + 1 = digitsToNat digits :=
            natStr_inj _ _ hpx.2
          exact hnone x (List.mem_reverse.mp hxmem) ⟨hpx.1, hxc⟩
        rw [hfn]
        rfl
      rw [hmiss]

/-- Witness for `resolve_well_coordinates`: a plate with wells `a1`
(id 101) and `aa27` (id 102, two-letter row 26, column 26); the
coordinate `aa27` resolves to 102 and the regex-valid but absent `b2`
resolves to the −1 sentinel. -/
theorem resolve_well_coordinates_witness :
    parse_plate [WellRec.mk 0 0 101, WellRec.mk 26 26 102] =
      .ok [("a", [("1", WellRec.mk 0 0 101)]),
           ("aa", [("27", WellRec.mk 26 26 102)])] ∧
    ((wellRegexMatch "aa27" = none →
      resolve_well [("p", [("a", [("1", WellRec.mk 0 0 101)]),
          ("aa", [("27", WellRec.mk 26 26 102)])])] [] "aa27" =
        .error (.metadataError ("Cannot parse well identifier " ++ "aa27"))) ∧
    (wellRegexMatch "aa27" = some ("aa", "27") →
      (∀ w ∈ [WellRec.mk 0 0 101, WellRec.mk 26 26 102],
        AS_ALPHA[w.row]? = some (pyToLower "aa") →
        w.col + 1 = digitsToNat "27" →
        resolve_well [("p", [("a", [("1", WellRec.mk 0 0 101)]),
            ("aa", [("27", WellRec.mk 26 26 102)])])] [] "aa27" =
          .ok (.rint w.id)) ∧
      ((∀ w ∈ [WellRec.mk 0 0 101, WellRec.mk 26 26 102],
          ¬(AS_ALPHA[w.row]? = some (pyToLower "aa") ∧
            w.col + 1 = digitsToNat "27")) →
        resolve_well [("p", [("a", [("1", WellRec.mk 0 0 101)]),
            ("aa", [("27", WellRec.mk 26 26 102)])])] [] "aa27" =
          .ok (.rint (-1))))) :=
  ⟨by rfl,
    resolve_well_coordinates [WellRec.mk 0 0 101, WellRec.mk 26 26 102]
      [("a", [("1", WellRec.mk 0 0 101)]),
       ("aa", [("27", WellRec.mk 26 26 102)])]
      "p" [] "aa27" "aa" "27" (by rfl) (by decide)⟩

end OmeroMetadata
